import Mathlib

/-!
Verification of the `stamd` store pool (`src/multistore.rs`) and the HTTP
content negotiation helper (`src/main.rs`) against its specification.

The Rust code is shallowly embedded: the pool's three `RwLock`-protected
`HashMap`s become association lists in a `PoolState` record, the immutable
configuration fields of `StorePool` become a `StorePool` record, and every
pool operation becomes a pure function from a state to a result and a new
state.  External effects (file existence, the stam library's
`AnnotationStore::from_file` and disk writes, the wall clock, the process
working directory) are passed in as an explicit `Env`.  The sleep/poll loops
of the source (`load`, `wait_until_ready`) are modelled for a single thread:
a poll that would spin forever because the condition can only be changed by
another thread is the `Step.blocked` outcome.  Paths follow Unix `Path`
semantics (`/` is the separator, `\x5c` is an ordinary character).
-/

namespace Stamd

/-- Error type of `common.rs` (`ApiError`); the payload of `StamError` is
abstracted to the underlying library's message string. -/
inductive ApiError where
  | MissingArgument (msg : String)
  | InternalError (msg : String)
  | NotFound (msg : String)
  | CustomNotFound (msg : String)
  | NotAcceptable (msg : String)
  | PermissionDenied (msg : String)
  | StamError (msg : String)
deriving DecidableEq, Repr

/-- The observable part of the external library's annotation store: its id,
the filename it was given, and the `changed()` dirty flag. -/
structure AnnotationStore where
  id : String
  filename : String
  changed : Bool
deriving DecidableEq, Repr

/-- The fields of stam's `WebAnnoConfig` that `multistore.rs` manipulates. -/
structure WebAnnoConfig where
  auto_generated : Bool
  default_annotation_iri : String
  default_resource_iri : String
  default_set_iri : String
  extra_target_template : Option String
deriving DecidableEq, Repr

/-- `StoreState` of `multistore.rs`.  `last_access` is a duration since the
Unix epoch, counted in nanoseconds (the precision of Rust's `Duration`). -/
structure StoreState where
  last_access : Nat
  loading : Bool
  saving : Bool
deriving DecidableEq, Repr

/-- Nanoseconds per second: `Duration::as_secs` divides by this. -/
def nanosPerSec : Nat := 1000000000

/-- One of the pool's `HashMap`s, modelled as an association list. -/
abbrev Table (α : Type) := List (String × α)

/-- `HashMap::get`. -/
def lookupT {α : Type} : Table α → String → Option α
  | [], _ => none
  | (k, v) :: rest, j => if k = j then some v else lookupT rest j

/-- `HashMap::remove` (removes every binding of the key). -/
def eraseT {α : Type} : Table α → String → Table α
  | [], _ => []
  | (k, v) :: rest, j => if k = j then eraseT rest j else (k, v) :: eraseT rest j

/-- `HashMap::insert`: the new binding replaces any old one. -/
def insertT {α : Type} (m : Table α) (k : String) (v : α) : Table α :=
  (k, v) :: eraseT m k

/-- `HashMap::get_mut` followed by an in-place update of the value. -/
def updateT {α : Type} : Table α → String → (α → α) → Table α
  | [], _, _ => []
  | (a, v) :: rest, k, f =>
      if a = k then (a, f v) :: updateT rest k f
      else (a, v) :: updateT rest k f

/-! ### Unix path semantics

`check_basename` works on `Path::components()`; `load` builds the on-disk
filename with `PathBuf::join` and `Path::with_extension`.  These are embedded
for Unix: the separator is `/`, a path is absolute iff it starts with `/`,
and `with_extension` replaces the extension of the final path component. -/

/-- A component as produced by Rust's `Path::components` on a relative path. -/
inductive PathComponent where
  | curDir
  | parentDir
  | normal (s : String)
deriving DecidableEq, Repr

/-- `Path::is_absolute` on Unix. -/
def isAbsolute (p : String) : Bool :=
  match p.data with
  | [] => false
  | c :: _ => c = '/'

/-- Whether a string ends in the separator. -/
def lastIsSlash (p : String) : Bool :=
  match p.data.getLast? with
  | some c => c = '/'
  | none => false

/-- Splitting a character list at a separator (the semantics of Rust's
`str::split` and of `String.splitOn` with a one-character pattern). -/
def splitChars (sep : Char) : List Char → List (List Char)
  | [] => [[]]
  | c :: cs =>
      let r := splitChars sep cs
      if c = sep then [] :: r
      else
        match r with
        | [] => [[c]]
        | h :: t => (c :: h) :: t

/-- `str::split` at a one-character separator, as strings. -/
def splitOnChar (s : String) (sep : Char) : List String :=
  (splitChars sep s.data).map String.mk

/-- The non-empty `/`-separated pieces of a path string. -/
def rawParts (p : String) : List String :=
  (splitOnChar p '/').filter (fun s => s ≠ "")

/-- Classify one raw piece. -/
def toComponent (s : String) : PathComponent :=
  if s = "." then .curDir else if s = ".." then .parentDir else .normal s

/-- `Path::components` of a relative path: empty pieces vanish, `.` is
normalized away except as the leading component. -/
def relComponents (p : String) : List PathComponent :=
  match rawParts p with
  | [] => []
  | c :: rest =>
      toComponent c :: (rest.filter (fun s => s ≠ ".")).map toComponent

/-- The enumerated component check of `check_basename`: index `> 0` means a
directory separator was present; a `..` component is refused. -/
def checkComponents : List PathComponent → Nat → Option ApiError
  | [], _ => none
  | c :: rest, i =>
      if i > 0 then some (.NotFound "Filename may not contain a directory")
      else if c = PathComponent.parentDir then
        some (.NotFound "No such annotationstore exists (no parent directories allowed)")
      else checkComponents rest (i + 1)

/-- `StorePool::check_basename`. -/
def check_basename (id : String) : Except ApiError String :=
  if isAbsolute id then
    .error (.NotFound "No such annotationstore exists (no absolute paths allowed)")
  else
    match checkComponents (relComponents id) 0 with
    | some e => .error e
    | none => .ok id

/-- `PathBuf::join` with a relative right-hand side (Unix). -/
def joinPath (base rel : String) : String :=
  if base = "" then rel
  else if lastIsSlash base then base ++ rel
  else base ++ "/" ++ rel

/-- Resolution of a possibly-relative path against the working directory:
this is what the operating system does when the process tests `exists()` or
opens a file. -/
def resolvePath (cwd p : String) : String :=
  if isAbsolute p then p else joinPath cwd p

/-- Rust `file_stem` of a bare filename (as a character list): everything
before the final dot, except that a name whose only dot is the leading one
has no extension. -/
def stemChars (f : List Char) : List Char :=
  let revf := f.reverse
  let afterDot := revf.takeWhile (fun c => !(c == '.'))
  if afterDot.length = revf.length then f
  else
    let stemLen := f.length - afterDot.length - 1
    if stemLen = 0 then f else f.take stemLen

/-- `Path::with_extension`: strip trailing separators, split off the final
component, replace its extension.  A path with no final component (the root)
is returned unchanged, as `set_extension` then returns `false`. -/
def with_extension (p ext : String) : String :=
  let cs := (((p.data.reverse).dropWhile (fun c => c == '/')).reverse)
  let fnameRev := cs.reverse.takeWhile (fun c => !(c == '/'))
  if fnameRev = [] then p
  else
    let dir := (cs.reverse.drop fnameRev.length).reverse
    let stem := stemChars fnameRev.reverse
    if ext = "" then String.mk (dir ++ stem)
    else String.mk (dir ++ stem) ++ "." ++ ext

/-- The path string `load` addresses for a sanitized id:
`basedir.join(id).with_extension(extension)`. -/
def loadFilename (basedir extension id : String) : String :=
  with_extension (joinPath basedir id) extension

/-! ### The store pool -/

/-- The immutable configuration fields of `StorePool`. -/
structure StorePool where
  basedir : String
  baseurl : String
  extension : String
  readonly : Bool
  no_extra_target : Bool
  unload_time : Nat
  webannoconfig : WebAnnoConfig
deriving DecidableEq, Repr

/-- The mutable tables of `StorePool`: the Store Table, the State Table and
the WebAnnoConfig Table (each behind its own `RwLock` in the source). -/
structure PoolState where
  stores : Table AnnotationStore
  states : Table StoreState
  webannoconfigs : Table WebAnnoConfig
deriving DecidableEq, Repr

/-- The pool's environment: `fs p` is whether a file exists at (absolute)
path `p`, `loader` is `AnnotationStore::from_file`, `diskOk p` is whether
the library's `store.save()` to path `p` succeeds, `now` is the wall clock
in nanoseconds since the epoch, and `cwd` is the process working directory
against which relative paths resolve. -/
structure Env where
  fs : String → Bool
  loader : String → Except String AnnotationStore
  diskOk : String → Bool
  now : Nat
  cwd : String

/-- Outcome of an operation that may poll forever waiting on another thread:
in this single-thread model such a poll loop never terminates. -/
inductive Step (α : Type) where
  | blocked
  | done (a : α)
deriving DecidableEq, Repr

/-- `StorePool::add_webannoconfig`: derive the per-store config from the
root template and the base URL. -/
def add_webannoconfig (cfg : StorePool) (st : PoolState) (id : String) : PoolState :=
  let w := cfg.webannoconfig
  let w :=
    { w with
      auto_generated := false
      default_annotation_iri :=
        if lastIsSlash cfg.baseurl then cfg.baseurl ++ id ++ "/annotations/"
        else cfg.baseurl ++ "/" ++ id ++ "/annotations/"
      default_resource_iri :=
        if lastIsSlash cfg.baseurl then cfg.baseurl ++ id ++ "/resources/"
        else cfg.baseurl ++ "/" ++ id ++ "/resources/"
      default_set_iri :=
        if lastIsSlash cfg.baseurl then cfg.baseurl ++ id ++ "/datasets/"
        else cfg.baseurl ++ "/" ++ id ++ "/datasets/" }
  let w :=
    if cfg.no_extra_target then w
    else { w with extra_target_template := some "{resource}/{begin}/{end}" }
  { st with webannoconfigs := insertT st.webannoconfigs id w }

/-- `StorePool::load`.  Returns the propagated result together with the new
table state; `Step.blocked` is the forever-spinning poll on a `loading`
entry (only another thread could clear it). -/
def load (env : Env) (cfg : StorePool) (st : PoolState) (id : String) :
    Step (Except ApiError StoreState × PoolState) :=
  match lookupT st.states id with
  | some s =>
      if s.loading then .blocked
      else
        -- already loaded: bump last_access under the write lock, return a copy
        .done (.ok { s with last_access := env.now },
          { st with states := updateT st.states id (fun t => { t with last_access := env.now }) })
  | none =>
      match check_basename id with
      | .error e => .done (.error e, st)
      | .ok basename =>
          let filename := loadFilename cfg.basedir cfg.extension basename
          if env.fs (resolvePath env.cwd filename) = false then
            .done (.error (.NotFound "No such annotationstore exists"), st)
          else
            -- mark as loading
            let st1 := { st with states := insertT st.states id ⟨env.now, true, false⟩ }
            match env.loader (resolvePath env.cwd filename) with
            | .error e => .done (.error (.StamError e), st1)
            | .ok store =>
                let st2 := { st1 with stores := insertT st1.stores id store }
                let st3 := add_webannoconfig cfg st2 id
                -- mark loading as done
                match lookupT st3.states id with
                | some s =>
                    .done (.ok { s with loading := false },
                      { st3 with states := updateT st3.states id (fun t => { t with loading := false }) })
                | none => .done (.error (.InternalError "State must exist"), st3)

/-- `StorePool::new_store`.  The existence test of the source is on the bare
relative filename `"{id}.{extension}"`, which the operating system resolves
against the working directory, not against `basedir`. -/
def new_store (env : Env) (cfg : StorePool) (st : PoolState) (id : String) :
    Except ApiError Unit × PoolState :=
  if cfg.readonly then (.error (.PermissionDenied "Service is readonly"), st)
  else
    match check_basename id with
    | .error e => (.error e, st)
    | .ok _ =>
        let filename := id ++ "." ++ cfg.extension
        if env.fs (resolvePath env.cwd filename) then
          (.error (.PermissionDenied "Store already exists"), st)
        else
          let store : AnnotationStore := ⟨id, filename, false⟩
          let st1 := { st with states := insertT st.states id ⟨env.now, false, false⟩ }
          let st2 := { st1 with stores := insertT st1.stores id store }
          (.ok (), add_webannoconfig cfg st2 id)

/-- `StorePool::wait_until_ready`: absent id is `NotFound`; a `loading` or
`saving` entry makes the single-threaded poll spin forever. -/
def wait_until_ready (st : PoolState) (id : String) :
    Step (Except ApiError StoreState) :=
  match lookupT st.states id with
  | some s => if s.loading || s.saving then .blocked else .done (.ok s)
  | none => .done (.error (.NotFound "No such store loaded"))

/-- Modelled from the spec: the external library's `AnnotationStore::save()`
is not part of this repository.  Per the spec ("If `store.changed()`, invoke
`store.save()`" and "the second call is a no-op (no write) if no mutation
occurred between them") a successful save persists the store and afterwards
`changed()` reports false. -/
def stamSave (s : AnnotationStore) : AnnotationStore := { s with changed := false }

/-- `StorePool::save`.  The third result component lists the paths written
to disk (the `store.save()` invocations). -/
def save (env : Env) (cfg : StorePool) (st : PoolState) (id : String) :
    Step (Except ApiError Unit × PoolState × List String) :=
  match wait_until_ready st id with
  | .blocked => .blocked
  | .done (.error e) => .done (.error e, st, [])
  | .done (.ok _) =>
      if cfg.readonly then
        .done (.error (.PermissionDenied "Service is configured as read-only"), st, [])
      else
        match lookupT st.states id with
        | none => .done (.error (.InternalError "State must exist"), st, [])
        | some _ =>
            -- mark in progress
            let st1 := { st with states := updateT st.states id (fun t => { t with saving := true }) }
            match lookupT st1.stores id with
            | none =>
                -- store absent from the Store Table: nothing is written
                .done (.ok (),
                  { st1 with states := updateT st1.states id (fun t => { t with saving := false }) }, [])
            | some store =>
                if store.changed then
                  if env.diskOk store.filename then
                    let st2 := { st1 with stores := updateT st1.stores id (fun _ => stamSave store) }
                    .done (.ok (),
                      { st2 with states := updateT st2.states id (fun t => { t with saving := false }) },
                      [store.filename])
                  else
                    -- `store.save()?` returns early: the saving flag stays set
                    .done (.error (.StamError "save failed"), st1, [])
                else
                  .done (.ok (),
                    { st1 with states := updateT st1.states id (fun t => { t with saving := false }) }, [])

/-- `StorePool::unload`: a missing store is a no-op success; otherwise save
first (unless read-only) and then remove the id from the Store Table, the
WebAnnoConfig Table and the State Table, in that order. -/
def unload (env : Env) (cfg : StorePool) (st : PoolState) (id : String) :
    Step (Except ApiError Unit × PoolState × List String) :=
  match wait_until_ready st id with
  | .blocked => .blocked
  | .done (.error (.NotFound _)) => .done (.ok (), st, [])
  | .done (.error e) => .done (.error e, st, [])
  | .done (.ok _) =>
      let saved : Step (Except ApiError Unit × PoolState × List String) :=
        if cfg.readonly then .done (.ok (), st, []) else save env cfg st id
      match saved with
      | .blocked => .blocked
      | .done (.error e, st1, w) => .done (.error e, st1, w)
      | .done (.ok _, st1, w) =>
          let st2 := { st1 with stores := eraseT st1.stores id }
          let st3 := { st2 with webannoconfigs := eraseT st2.webannoconfigs id }
          let st4 := { st3 with states := eraseT st3.states id }
          .done (.ok (), st4, w)

/-- The eviction condition of `flush`: `force`, or
`(now - last_access).as_secs() >= unload_time`. -/
def evictCond (env : Env) (cfg : StorePool) (force : Bool) (s : StoreState) : Bool :=
  force || decide (cfg.unload_time ≤ (env.now - s.last_access) / nanosPerSec)

/-- The ids `flush` collects under the State read lock. -/
def flushIds (env : Env) (cfg : StorePool) (st : PoolState) (force : Bool) :
    List String :=
  (st.states.filter (fun p => evictCond env cfg force p.2)).map Prod.fst

/-- The unload loop of `flush`: `self.unload(&id)?` over the collected ids. -/
def flushGo (env : Env) (cfg : StorePool) :
    List String → PoolState → List String →
    Step (Except ApiError Unit × PoolState × List String)
  | [], st, w => .done (.ok (), st, w)
  | id :: rest, st, w =>
      match unload env cfg st id with
      | .blocked => .blocked
      | .done (.error e, st1, w1) => .done (.error e, st1, w ++ w1)
      | .done (.ok _, st1, w1) => flushGo env cfg rest st1 (w ++ w1)

/-- `StorePool::flush`. -/
def flush (env : Env) (cfg : StorePool) (st : PoolState) (force : Bool) :
    Step (Except ApiError (List String) × PoolState × List String) :=
  let remove_ids := flushIds env cfg st force
  match flushGo env cfg remove_ids st [] with
  | .blocked => .blocked
  | .done (.error e, st1, w) => .done (.error e, st1, w)
  | .done (.ok _, st1, w) => .done (.ok remove_ids, st1, w)

/-- `StorePool::map_mut`.  The closure is modelled as a function from the
store to a result and the (possibly mutated) store; the final `Bool` records
whether the closure was invoked. -/
def map_mut {α : Type} (env : Env) (cfg : StorePool) (st : PoolState) (id : String)
    (f : AnnotationStore → Except ApiError α × AnnotationStore) :
    Step (Except ApiError α × PoolState × Bool) :=
  if cfg.readonly then
    .done (.error (.PermissionDenied "Service is configured as read-only"), st, false)
  else
    match load env cfg st id with
    | .blocked => .blocked
    | .done (.error e, st1) => .done (.error e, st1, false)
    | .done (.ok _, st1) =>
        match lookupT st1.stores id with
        | none => .done (.error (.InternalError "Annotationstore not loaded"), st1, false)
        | some store =>
            let r := f store
            .done (r.1, { st1 with stores := updateT st1.stores id (fun _ => r.2) }, true)

/-! ### Content negotiation (`main.rs`) -/

/-- The inner `for offer_type in offer_types` loop of
`negotiate_content_type`, threading the best accept-index and offer. -/
def negotiateOffers : List String → String → Nat → Option Nat → Option String →
    Option Nat × Option String
  | [], _, _, mi, mo => (mi, mo)
  | o :: os, a, i, mi, mo =>
      if o == a || a == "*/*" then
        match mi with
        | none => negotiateOffers os a i (some i) (some o)
        | some j =>
            if j > i then negotiateOffers os a i (some i) (some o)
            else negotiateOffers os a i mi mo
      else negotiateOffers os a i mi mo

/-- The outer loop over the comma-separated parts of the Accept header. -/
def negotiateParts (offers : List String) :
    List String → Nat → Option Nat → Option String → Option Nat × Option String
  | [], _, mi, mo => (mi, mo)
  | part :: rest, i, mi, mo =>
      let accept_type := (splitOnChar part ';').headD ""
      let r := negotiateOffers offers accept_type i mi mo
      negotiateParts offers rest (i + 1) r.1 r.2

/-- `negotiate_content_type` of `main.rs`.  `accept` is the Accept header if
the request carries one (a header whose bytes are not valid text enters as
`"application/json"`, the source's `unwrap_or`).  On an empty offer list and
no Accept header the source indexes `offer_types[0]` and panics; the panic
is modelled as an internal error. -/
def negotiate_content_type (accept : Option String) (offer_types : List String) :
    Except ApiError String :=
  match accept with
  | some s =>
      let r := negotiateParts offer_types (splitOnChar s ',') 0 none none
      match r.2 with
      | some o => .ok o
      | none => .error (.NotAcceptable "No matching content type on offer")
  | none =>
      match offer_types with
      | [] => .error (.InternalError "panic: index out of bounds")
      | t :: _ => .ok t

/-! ### Concrete configurations and environments used by the witnesses -/

/-- A root WebAnnoConfig template. -/
def wconf0 : WebAnnoConfig := ⟨true, "", "", "", none⟩

/-- A writable pool over `/data` with the default extension. -/
def cfgRW : StorePool := ⟨"/data", "http://h", "store.stam.json", false, false, 600, wconf0⟩

/-- The same pool configured read-only. -/
def cfgRO : StorePool := ⟨"/data", "http://h", "store.stam.json", true, false, 600, wconf0⟩

/-- An environment with an empty filesystem. -/
def envNone : Env := ⟨fun _ => false, fun _ => .error "io", fun _ => true, 5, "/srv"⟩

/-- `/data/a.store.stam.json` exists but fails to parse. -/
def envC1 : Env :=
  ⟨fun p => p == "/data/a.store.stam.json", fun _ => .error "parse error", fun _ => true, 5, "/srv"⟩

/-- `/data/x.store.stam.json` exists; the working directory is `/srv`. -/
def envC2 : Env := ⟨fun p => p == "/data/x.store.stam.json", fun _ => .error "io", fun _ => true, 7, "/srv"⟩

/-- `/data/a.b.store.stam.json` exists (the file the claim says `load "a.b"`
addresses). -/
def envC4 : Env := ⟨fun p => p == "/data/a.b.store.stam.json", fun _ => .error "io", fun _ => true, 5, "/srv"⟩

/-- Every path exists and every disk write succeeds. -/
def envDisk : Env := ⟨fun _ => true, fun _ => .error "io", fun _ => true, 9, "/srv"⟩

/-- A pool state holding one loaded, dirty store `a`. -/
def stDirty : PoolState :=
  ⟨[("a", ⟨"a", "a.store.stam.json", true⟩)], [("a", ⟨0, false, false⟩)], []⟩

/-! ### Table lemmas -/

theorem lookupT_insertT_self {α : Type} (m : Table α) (k : String) (v : α) :
    lookupT (insertT m k v) k = some v := by
  simp [insertT, lookupT]

theorem lookupT_eraseT_self {α : Type} (m : Table α) (k : String) :
    lookupT (eraseT m k) k = none := by
  induction m with
  | nil => rfl
  | cons p rest ih =>
      obtain ⟨a, v⟩ := p
      by_cases h : a = k <;> simp [eraseT, lookupT, h, ih]

theorem lookupT_eraseT_ne {α : Type} (m : Table α) (k j : String) (h : k ≠ j) :
    lookupT (eraseT m k) j = lookupT m j := by
  induction m with
  | nil => rfl
  | cons p rest ih =>
      obtain ⟨a, v⟩ := p
      by_cases ha : a = k
      · subst ha
        simp [eraseT, lookupT, ih, h]
      · by_cases hj : a = j
        · subst hj
          simp [eraseT, lookupT, ha, ih]
        · simp [eraseT, lookupT, ha, hj, ih]

theorem lookupT_updateT_self {α : Type} (m : Table α) (k : String) (f : α → α) :
    lookupT (updateT m k f) k = (lookupT m k).map f := by
  induction m with
  | nil => rfl
  | cons p rest ih =>
      obtain ⟨a, v⟩ := p
      by_cases h : a = k
      · subst h
        simp [updateT, lookupT]
      · simp [updateT, lookupT, h, ih]

theorem lookupT_updateT_ne {α : Type} (m : Table α) (k j : String) (f : α → α)
    (h : k ≠ j) : lookupT (updateT m k f) j = lookupT m j := by
  induction m with
  | nil => rfl
  | cons p rest ih =>
      obtain ⟨a, v⟩ := p
      by_cases ha : a = k
      · subst ha
        simp [updateT, lookupT, h, ih]
      · by_cases hj : a = j
        · subst hj
          simp [updateT, lookupT, ha, ih]
        · simp [updateT, lookupT, ha, hj, ih]

theorem lookupT_updateT_none {α : Type} (m : Table α) (k j : String) (f : α → α)
    (h : lookupT m j = none) : lookupT (updateT m k f) j = none := by
  by_cases hk : k = j
  · subst hk
    rw [lookupT_updateT_self, h]
    rfl
  · rw [lookupT_updateT_ne m k j f hk]
    exact h

theorem lookupT_eraseT_none {α : Type} (m : Table α) (k j : String)
    (h : lookupT m j = none) : lookupT (eraseT m k) j = none := by
  by_cases hk : k = j
  · subst hk
    exact lookupT_eraseT_self m k
  · rw [lookupT_eraseT_ne m k j hk]
    exact h

theorem updateT_updateT {α : Type} (m : Table α) (k : String) (f g : α → α) :
    updateT (updateT m k f) k g = updateT m k (fun v => g (f v)) := by
  induction m with
  | nil => rfl
  | cons p rest ih =>
      obtain ⟨a, v⟩ := p
      by_cases h : a = k
      · subst h
        simp [updateT, ih]
      · simp [updateT, h, ih]

end Stamd

namespace Stamd

/-! ### C10: content negotiation without an Accept header -/

/-- C10: for every non-empty list of offered content types, a request with
no Accept header makes `negotiate_content_type` return `Ok` with the first
offered content type, and never `NotAcceptable`. -/
theorem c10_no_accept_first_offer (offer_types : List String)
    (h : offer_types ≠ []) :
    negotiate_content_type none offer_types = .ok (offer_types.head h) ∧
    ∀ m, negotiate_content_type none offer_types ≠
      .error (.NotAcceptable m) := by
  cases offer_types with
  | nil => exact absurd rfl h
  | cons t ts => exact ⟨rfl, fun m hm => by simp [negotiate_content_type] at hm⟩

/-- Witness for C10 at a concrete offer list. -/
theorem c10_witness :
    (["application/json", "text/plain"] : List String) ≠ [] ∧
    negotiate_content_type none ["application/json", "text/plain"] =
      .ok "application/json" :=
  ⟨by decide, (c10_no_accept_first_offer ["application/json", "text/plain"]
    (by decide)).1⟩

/-! ### C5: `map_mut` on a read-only pool -/

/-- C5: on a pool configured read-only, `map_mut` fails with
`PermissionDenied`, does not invoke the closure, does not load the store,
and leaves every table (and so every store) unchanged. -/
theorem c5_map_mut_readonly {α : Type} (env : Env) (cfg : StorePool)
    (st : PoolState) (id : String)
    (f : AnnotationStore → Except ApiError α × AnnotationStore)
    (h : cfg.readonly = true) :
    map_mut env cfg st id f =
      .done (.error (.PermissionDenied "Service is configured as read-only"),
        st, false) := by
  simp [map_mut, h]

/-- Witness for C5 on the read-only configuration. -/
theorem c5_witness :
    cfgRO.readonly = true ∧
    map_mut (α := Nat) envNone cfgRO ⟨[], [], []⟩ "a" (fun s => (.ok 0, s)) =
      .done (.error (.PermissionDenied "Service is configured as read-only"),
        ⟨[], [], []⟩, false) :=
  ⟨rfl, c5_map_mut_readonly envNone cfgRO ⟨[], [], []⟩ "a" _ rfl⟩

/-! ### C8: `save` on an absent store -/

/-- C8: when the store is absent from the pool (no State Table entry),
`save` fails with `NotFound`, writes nothing to disk, and leaves the pool
unchanged. -/
theorem c8_save_absent (env : Env) (cfg : StorePool) (st : PoolState)
    (id : String) (h : lookupT st.states id = none) :
    save env cfg st id =
      .done (.error (.NotFound "No such store loaded"), st, []) := by
  simp [save, wait_until_ready, h]

/-- Witness for C8 on the empty pool. -/
theorem c8_witness :
    lookupT (⟨[], [], []⟩ : PoolState).states "a" = none ∧
    save envNone cfgRW ⟨[], [], []⟩ "a" =
      .done (.error (.NotFound "No such store loaded"), ⟨[], [], []⟩, []) :=
  ⟨rfl, c8_save_absent envNone cfgRW ⟨[], [], []⟩ "a" rfl⟩

/-! ### C3: what the sanitizer rejects -/

/-- C3 fails as stated: the id `a\x5c..b/` contains a backslash, contains
`..`, and contains `/`, yet `check_basename` accepts it (on Unix the
backslash is an ordinary character, `..` inside a longer name is a normal
component, and a trailing separator vanishes in `Path::components`). -/
theorem c3_counterexample :
    check_basename "a\\..b/" = .ok "a\\..b/" ∧
    '/' ∈ "a\\..b/".data ∧ '\\' ∈ "a\\..b/".data ∧
    "a\\..b/".data = ['a', '\\'] ++ ('.' :: '.' :: []) ++ ['b', '/'] := by
  refine ⟨rfl, by decide, by decide, by decide⟩

/-- C3 (amended): `check_basename` rejects an id exactly when it is an
absolute path (leading separator), decomposes into more than one path
component (a `/` separating two components), or is the single
parent-directory component `..`. -/
theorem c3_amended_check_basename (id : String) :
    (∃ e, check_basename id = .error e) ↔
      (isAbsolute id = true ∨ 1 < (relComponents id).length ∨
        relComponents id = [PathComponent.parentDir]) := by
  unfold check_basename
  by_cases habs : isAbsolute id = true
  · simp [habs]
  · simp only [habs, Bool.false_eq_true, if_false]
    cases hc : relComponents id with
    | nil => simp [checkComponents, habs]
    | cons c rest =>
        cases rest with
        | nil =>
            by_cases hp : c = PathComponent.parentDir <;>
              simp [checkComponents, hp, habs]
        | cons c2 rest2 =>
            by_cases hp : c = PathComponent.parentDir <;>
              simp [checkComponents, hp, habs]

/-! ### C1: state left behind by a failing load -/

/-- C1 fails as stated: on loader failure the error is propagated, but the
early return skips the "mark loading as done" step, so the State entry is
left with `loading = true` (not `false`): a concrete run against
`/data/a.store.stam.json` whose parse fails. -/
theorem c1_counterexample :
    load envC1 cfgRW ⟨[], [], []⟩ "a" =
      .done (.error (.StamError "parse error"),
        ⟨[], [("a", ⟨5, true, false⟩)], []⟩) ∧
    (lookupT [("a", (⟨5, true, false⟩ : StoreState))] "a").map StoreState.loading =
      some true := by
  exact ⟨rfl, rfl⟩

/-- C1 (amended): for every fresh sanitized id whose file exists, when the
external loader fails, `load` propagates the underlying error as `StamError`
and leaves the State Table entry for the id in place with `loading = true`
(the failure path never resets the flag). -/
theorem c1_amended_load_failure (env : Env) (cfg : StorePool) (st : PoolState)
    (id e : String)
    (hid : lookupT st.states id = none)
    (hok : check_basename id = .ok id)
    (hfs : env.fs (resolvePath env.cwd (loadFilename cfg.basedir cfg.extension id)) = true)
    (hload : env.loader (resolvePath env.cwd (loadFilename cfg.basedir cfg.extension id)) = .error e) :
    load env cfg st id =
      .done (.error (.StamError e),
        { st with states := insertT st.states id ⟨env.now, true, false⟩ }) ∧
    lookupT (insertT st.states id ⟨env.now, true, false⟩) id =
      some ⟨env.now, true, false⟩ := by
  refine ⟨?_, lookupT_insertT_self _ _ _⟩
  simp [load, hid, hok, hfs, hload]

/-- Witness for the amended C1 at the concrete failing parse. -/
theorem c1_witness :
    lookupT (⟨[], [], []⟩ : PoolState).states "a" = none ∧
    check_basename "a" = .ok "a" ∧
    load envC1 cfgRW ⟨[], [], []⟩ "a" =
      .done (.error (.StamError "parse error"),
        { (⟨[], [], []⟩ : PoolState) with
            states := insertT ([] : Table StoreState) "a" ⟨5, true, false⟩ }) :=
  ⟨rfl, rfl,
    (c1_amended_load_failure envC1 cfgRW ⟨[], [], []⟩ "a" "parse error"
      rfl rfl rfl rfl).1⟩

/-! ### C2: the existence check of `new_store` -/

/-- C2: the code is wrong where the claim (and the spec's intent) demand the
existence check against `basedir`.  Concrete run: the pool's base directory
is `/data`, the working directory is `/srv`, and `/data/x.store.stam.json`
exists.  The claim requires `new_store "x"` to fail with `PermissionDenied`;
the code tests the bare relative path `x.store.stam.json` (resolved by the
OS against the working directory), finds nothing, and creates the store. -/
theorem c2_code_bug_new_store :
    envC2.fs (joinPath cfgRW.basedir ("x" ++ "." ++ cfgRW.extension)) = true ∧
    envC2.fs (resolvePath envC2.cwd ("x" ++ "." ++ cfgRW.extension)) = false ∧
    (new_store envC2 cfgRW ⟨[], [], []⟩ "x").1 = .ok () ∧
    lookupT (new_store envC2 cfgRW ⟨[], [], []⟩ "x").2.states "x" =
      some ⟨7, false, false⟩ ∧
    lookupT (new_store envC2 cfgRW ⟨[], [], []⟩ "x").2.stores "x" =
      some ⟨"x", "x.store.stam.json", false⟩ := by
  exact ⟨rfl, rfl, rfl, rfl, rfl⟩

/-! ### C4: the file a load addresses -/

/-- C4 fails as stated for ids containing a dot: `with_extension` replaces
the id's apparent extension instead of appending.  Concrete run: the claim
says `load "a.b"` addresses `/data/a.b.store.stam.json`; that file exists,
yet load answers `NotFound` because it addressed `/data/a.store.stam.json`. -/
theorem c4_counterexample :
    check_basename "a.b" = .ok "a.b" ∧
    envC4.fs "/data/a.b.store.stam.json" = true ∧
    loadFilename cfgRW.basedir cfgRW.extension "a.b" = "/data/a.store.stam.json" ∧
    load envC4 cfgRW ⟨[], [], []⟩ "a.b" =
      .done (.error (.NotFound "No such annotationstore exists"), ⟨[], [], []⟩) := by
  exact ⟨rfl, rfl, rfl, rfl⟩

theorem takeWhile_append_cons (p : Char → Bool) (l1 : List Char) (a : Char)
    (l2 : List Char) (h1 : ∀ c ∈ l1, p c = true) (ha : p a = false) :
    (l1 ++ a :: l2).takeWhile p = l1 := by
  induction l1 with
  | nil =>
      rw [List.nil_append, List.takeWhile_cons, if_neg (by simp [ha])]
  | cons c cs ih =>
      have hc : p c = true := h1 c (List.mem_cons_self _ _)
      rw [List.cons_append, List.takeWhile_cons, if_pos hc]
      exact congrArg (List.cons c) (ih (fun x hx => h1 x (List.mem_cons_of_mem _ hx)))

theorem takeWhile_eq_self (p : Char → Bool) (l : List Char)
    (h : ∀ c ∈ l, p c = true) : l.takeWhile p = l := by
  induction l with
  | nil => rfl
  | cons c cs ih =>
      have hc : p c = true := h c (List.mem_cons_self _ _)
      rw [List.takeWhile_cons, if_pos hc]
      exact congrArg (List.cons c) (ih (fun x hx => h x (List.mem_cons_of_mem _ hx)))

/-- For an id with no dot and no separator, `with_extension` appends, so the
addressed path is exactly `{base}/{id}.{ext}`. -/
theorem with_extension_append (base id ext : String)
    (hid : id.data ≠ [])
    (hchars : ∀ c ∈ id.data, c ≠ '.' ∧ c ≠ '/')
    (hext : ext ≠ "") :
    with_extension (base ++ "/" ++ id) ext = base ++ "/" ++ id ++ "." ++ ext := by
  have hdata : (base ++ "/" ++ id).data = base.data ++ '/' :: id.data := by
    simp [String.data_append]
  have hrevall : (base ++ "/" ++ id).data.reverse =
      id.data.reverse ++ '/' :: base.data.reverse := by
    rw [hdata]
    simp
  have hdrop :
      ((base ++ "/" ++ id).data.reverse.dropWhile (fun c => c == '/')) =
        (base ++ "/" ++ id).data.reverse := by
    rw [hrevall]
    cases hr : id.data.reverse with
    | nil => exact absurd (List.reverse_eq_nil_iff.mp hr) hid
    | cons c cs =>
        have hc : c ∈ id.data := by
          rw [← List.mem_reverse, hr]
          exact List.mem_cons_self _ _
        have hcs : (c == '/') = false := by
          simp [(hchars c hc).2]
        rw [List.cons_append, List.dropWhile_cons, if_neg (by simp [hcs])]
  have htake :
      ((base ++ "/" ++ id).data.reverse.takeWhile (fun c => !(c == '/'))) =
        id.data.reverse := by
    rw [hrevall]
    refine takeWhile_append_cons _ _ _ _ (fun c hc => ?_) (by simp)
    have : c ∈ id.data := List.mem_reverse.mp hc
    simp [(hchars c this).2]
  have hstem : stemChars id.data = id.data := by
    have hdots : id.data.reverse.takeWhile (fun c => !(c == '.')) = id.data.reverse :=
      takeWhile_eq_self _ _ (fun c hc => by
        simp [(hchars c (List.mem_reverse.mp hc)).1])
    simp only [stemChars]
    rw [hdots, if_pos rfl]
  have hdropdir :
      (id.data.reverse ++ '/' :: base.data.reverse).drop id.data.reverse.length =
        '/' :: base.data.reverse :=
    List.drop_left id.data.reverse ('/' :: base.data.reverse)
  simp only [with_extension]
  rw [hdrop]
  simp only [List.reverse_reverse]
  rw [htake]
  rw [if_neg (by simp [hid])]
  rw [hrevall, hdropdir]
  simp only [List.reverse_reverse]
  rw [hstem]
  rw [List.reverse_cons, List.reverse_reverse]
  rw [if_neg hext]
  apply String.ext
  simp [String.data_append, hdata]

/-- C4 (amended): for every sanitizer-accepted fresh id, `load` addresses
the file `basedir.join(id).with_extension(extension)` (resolved against the
working directory when relative): it returns `NotFound` exactly when that
file does not exist.  For ids containing no dot and no separator this file
is exactly `{basedir}/{id}.{extension}`, as the claim states. -/
theorem c4_amended_load_filename (env : Env) (cfg : StorePool) (st : PoolState)
    (id : String)
    (hid : lookupT st.states id = none)
    (hok : check_basename id = .ok id) :
    (env.fs (resolvePath env.cwd (loadFilename cfg.basedir cfg.extension id)) = false →
      load env cfg st id =
        .done (.error (.NotFound "No such annotationstore exists"), st)) ∧
    (env.fs (resolvePath env.cwd (loadFilename cfg.basedir cfg.extension id)) = true →
      ∀ st2 m, load env cfg st id ≠ .done (.error (.NotFound m), st2)) ∧
    (id.data ≠ [] → (∀ c ∈ id.data, c ≠ '.' ∧ c ≠ '/') → cfg.extension ≠ "" →
      cfg.basedir ≠ "" → lastIsSlash cfg.basedir = false →
      loadFilename cfg.basedir cfg.extension id =
        cfg.basedir ++ "/" ++ id ++ "." ++ cfg.extension) := by
  refine ⟨?_, ?_, ?_⟩
  · intro hfs
    simp [load, hid, hok, hfs]
  · intro hfs st2 m hcontra
    rcases hl : env.loader (resolvePath env.cwd (loadFilename cfg.basedir cfg.extension id))
      with e | store
    · simp [load, hid, hok, hfs, hl] at hcontra
    · simp [load, hid, hok, hfs, hl, add_webannoconfig, lookupT_insertT_self] at hcontra
  · intro h1 h2 h3 h4 h5
    unfold loadFilename joinPath
    rw [if_neg h4, if_neg (by simp [h5])]
    exact with_extension_append cfg.basedir id cfg.extension h1 h2 h3

/-- Witness for the amended C4: a run on the missing store `b` and the
dot-free filename computation. -/
theorem c4_witness :
    lookupT (⟨[], [], []⟩ : PoolState).states "b" = none ∧
    check_basename "b" = .ok "b" ∧
    load envNone cfgRW ⟨[], [], []⟩ "b" =
      .done (.error (.NotFound "No such annotationstore exists"), ⟨[], [], []⟩) ∧
    loadFilename cfgRW.basedir cfgRW.extension "b" = "/data/b.store.stam.json" :=
  ⟨rfl, rfl,
    (c4_amended_load_filename envNone cfgRW ⟨[], [], []⟩ "b" rfl rfl).1 rfl,
    (c4_amended_load_filename envNone cfgRW ⟨[], [], []⟩ "b" rfl rfl).2.2
      (by decide) (by decide) (by decide) (by decide) (by decide)⟩

/-! ### Structural lemmas about `save` and `unload` -/

/-- Any completed `save` only ever toggles the id's saving flag in the State
Table, possibly replaces the id's store with its saved copy, and leaves the
WebAnnoConfig Table alone. -/
theorem save_done_tables (env : Env) (cfg : StorePool) (st : PoolState)
    (id : String) (r : Except ApiError Unit) (st1 : PoolState) (w : List String)
    (h : save env cfg st id = .done (r, st1, w)) :
    (st1.states = st.states ∨
      st1.states = updateT st.states id (fun t => { t with saving := true }) ∨
      st1.states = updateT st.states id (fun t => { t with saving := false })) ∧
    (st1.stores = st.stores ∨
      ∃ a, st1.stores = updateT st.stores id (fun _ => stamSave a)) ∧
    st1.webannoconfigs = st.webannoconfigs := by
  cases hs : lookupT st.states id with
  | none =>
      simp [save, wait_until_ready, hs] at h
      obtain ⟨-, hst, -⟩ := h
      subst hst
      exact ⟨Or.inl rfl, Or.inl rfl, rfl⟩
  | some s =>
      by_cases hb : (s.loading || s.saving) = true
      · simp [save, wait_until_ready, hs, hb] at h
      · by_cases hro : cfg.readonly = true
        · simp [save, wait_until_ready, hs, hb, hro] at h
          obtain ⟨-, hst, -⟩ := h
          subst hst
          exact ⟨Or.inl rfl, Or.inl rfl, rfl⟩
        · cases hst : lookupT st.stores id with
          | none =>
              simp [save, wait_until_ready, hs, hb, hro, hst] at h
              obtain ⟨-, hst1, -⟩ := h
              subst hst1
              refine ⟨Or.inr (Or.inr ?_), Or.inl rfl, rfl⟩
              rw [updateT_updateT]
          | some a =>
              by_cases hch : a.changed = true
              · by_cases hdk : env.diskOk a.filename = true
                · simp [save, wait_until_ready, hs, hb, hro, hst, hch, hdk] at h
                  obtain ⟨-, hst1, -⟩ := h
                  subst hst1
                  refine ⟨Or.inr (Or.inr ?_), Or.inr ⟨a, rfl⟩, rfl⟩
                  rw [updateT_updateT]
                · simp [save, wait_until_ready, hs, hb, hro, hst, hch, hdk] at h
                  obtain ⟨-, hst1, -⟩ := h
                  subst hst1
                  exact ⟨Or.inr (Or.inl rfl), Or.inl rfl, rfl⟩
              · simp [save, wait_until_ready, hs, hb, hro, hst, hch] at h
                obtain ⟨-, hst1, -⟩ := h
                subst hst1
                refine ⟨Or.inr (Or.inr ?_), Or.inl rfl, rfl⟩
                rw [updateT_updateT]

/-- A completed `save` never adds a key to any table. -/
theorem save_lookup_none (env : Env) (cfg : StorePool) (st : PoolState)
    (id : String) (r : Except ApiError Unit) (st1 : PoolState) (w : List String)
    (h : save env cfg st id = .done (r, st1, w)) (j : String) :
    (lookupT st.states j = none → lookupT st1.states j = none) ∧
    (lookupT st.stores j = none → lookupT st1.stores j = none) ∧
    (lookupT st.webannoconfigs j = none → lookupT st1.webannoconfigs j = none) := by
  obtain ⟨hstates, hstores, hweb⟩ := save_done_tables env cfg st id r st1 w h
  refine ⟨?_, ?_, ?_⟩
  · intro hn
    rcases hstates with he | he | he <;> rw [he] <;>
      first
        | exact hn
        | exact lookupT_updateT_none _ _ _ _ hn
  · intro hn
    rcases hstores with he | ⟨a, he⟩ <;> rw [he] <;>
      first
        | exact hn
        | exact lookupT_updateT_none _ _ _ _ hn
  · intro hn
    rw [hweb]
    exact hn

/-- A completed `save` leaves every other id's table entries untouched. -/
theorem save_lookup_ne (env : Env) (cfg : StorePool) (st : PoolState)
    (id : String) (r : Except ApiError Unit) (st1 : PoolState) (w : List String)
    (h : save env cfg st id = .done (r, st1, w)) (j : String) (hj : j ≠ id) :
    lookupT st1.states j = lookupT st.states j ∧
    lookupT st1.stores j = lookupT st.stores j ∧
    lookupT st1.webannoconfigs j = lookupT st.webannoconfigs j := by
  obtain ⟨hstates, hstores, hweb⟩ := save_done_tables env cfg st id r st1 w h
  refine ⟨?_, ?_, by rw [hweb]⟩
  · rcases hstates with he | he | he <;> rw [he] <;>
      try exact lookupT_updateT_ne _ _ _ _ (Ne.symm hj)
  · rcases hstores with he | ⟨a, he⟩ <;> rw [he] <;>
      try exact lookupT_updateT_ne _ _ _ _ (Ne.symm hj)

/-- A successful `unload` removes the id from the State Table. -/
theorem unload_ok_states_removed (env : Env) (cfg : StorePool) (st : PoolState)
    (id : String) (st1 : PoolState) (w : List String)
    (h : unload env cfg st id = .done (.ok (), st1, w)) :
    lookupT st1.states id = none := by
  cases hs : lookupT st.states id with
  | none =>
      simp [unload, wait_until_ready, hs] at h
      obtain ⟨hst, -⟩ := h
      subst hst
      exact hs
  | some s =>
      by_cases hb : (s.loading || s.saving) = true
      · simp [unload, wait_until_ready, hs, hb] at h
      · by_cases hro : cfg.readonly = true
        · simp [unload, wait_until_ready, hs, hb, hro] at h
          obtain ⟨hst, -⟩ := h
          subst hst
          exact lookupT_eraseT_self _ _
        · cases hsv : save env cfg st id with
          | blocked => simp [unload, wait_until_ready, hs, hb, hro, hsv] at h
          | done rr =>
              obtain ⟨res, st2, w2⟩ := rr
              cases res with
              | error e => simp [unload, wait_until_ready, hs, hb, hro, hsv] at h
              | ok u =>
                  simp [unload, wait_until_ready, hs, hb, hro, hsv] at h
                  obtain ⟨hst, -⟩ := h
                  subst hst
                  exact lookupT_eraseT_self _ _

/-- A completed `unload` never adds a key and, for other ids, never changes
the State Table entry. -/
theorem unload_states_ne (env : Env) (cfg : StorePool) (st : PoolState)
    (id : String) (r : Except ApiError Unit) (st1 : PoolState) (w : List String)
    (h : unload env cfg st id = .done (r, st1, w)) (j : String) (hj : j ≠ id) :
    lookupT st1.states j = lookupT st.states j := by
  cases hs : lookupT st.states id with
  | none =>
      simp [unload, wait_until_ready, hs] at h
      obtain ⟨-, hst, -⟩ := h
      subst hst
      rfl
  | some s =>
      by_cases hb : (s.loading || s.saving) = true
      · simp [unload, wait_until_ready, hs, hb] at h
      · by_cases hro : cfg.readonly = true
        · simp [unload, wait_until_ready, hs, hb, hro] at h
          obtain ⟨-, hst, -⟩ := h
          subst hst
          exact lookupT_eraseT_ne _ _ _ (Ne.symm hj)
        · cases hsv : save env cfg st id with
          | blocked => simp [unload, wait_until_ready, hs, hb, hro, hsv] at h
          | done rr =>
              obtain ⟨res, st2, w2⟩ := rr
              cases res with
              | error e =>
                  simp [unload, wait_until_ready, hs, hb, hro, hsv] at h
                  obtain ⟨-, hst, -⟩ := h
                  subst hst
                  exact (save_lookup_ne env cfg st id (.error e) st2 w2 hsv j hj).1
              | ok u =>
                  simp [unload, wait_until_ready, hs, hb, hro, hsv] at h
                  obtain ⟨-, hst, -⟩ := h
                  subst hst
                  rw [lookupT_eraseT_ne _ _ _ (Ne.symm hj)]
                  exact (save_lookup_ne env cfg st id (.ok u) st2 w2 hsv j hj).1

/-! ### C7: `unload` removes the id from all three tables -/

/-- C7: in a pool where (as in every reachable state) a store or web-anno
entry for an id only exists alongside a State entry, a successful
`unload id` leaves none of the State Table, the Store Table, or the
WebAnnoConfig Table with an entry for the id. -/
theorem c7_unload_removes (env : Env) (cfg : StorePool) (st : PoolState)
    (id : String) (st1 : PoolState) (w : List String)
    (hstores : lookupT st.states id = none → lookupT st.stores id = none)
    (hwconf : lookupT st.states id = none → lookupT st.webannoconfigs id = none)
    (h : unload env cfg st id = .done (.ok (), st1, w)) :
    lookupT st1.states id = none ∧ lookupT st1.stores id = none ∧
      lookupT st1.webannoconfigs id = none := by
  cases hs : lookupT st.states id with
  | none =>
      simp [unload, wait_until_ready, hs] at h
      obtain ⟨hst, -⟩ := h
      subst hst
      exact ⟨hs, hstores hs, hwconf hs⟩
  | some s =>
      by_cases hb : (s.loading || s.saving) = true
      · simp [unload, wait_until_ready, hs, hb] at h
      · by_cases hro : cfg.readonly = true
        · simp [unload, wait_until_ready, hs, hb, hro] at h
          obtain ⟨hst, -⟩ := h
          subst hst
          exact ⟨lookupT_eraseT_self _ _, lookupT_eraseT_self _ _,
            lookupT_eraseT_self _ _⟩
        · cases hsv : save env cfg st id with
          | blocked => simp [unload, wait_until_ready, hs, hb, hro, hsv] at h
          | done rr =>
              obtain ⟨res, st2, w2⟩ := rr
              cases res with
              | error e => simp [unload, wait_until_ready, hs, hb, hro, hsv] at h
              | ok u =>
                  simp [unload, wait_until_ready, hs, hb, hro, hsv] at h
                  obtain ⟨hst, -⟩ := h
                  subst hst
                  exact ⟨lookupT_eraseT_self _ _, lookupT_eraseT_self _ _,
                    lookupT_eraseT_self _ _⟩

/-- Witness for C7: unloading a clean loaded store empties all tables. -/
theorem c7_witness :
    (lookupT (⟨[("a", ⟨"a", "fn", false⟩)], [("a", ⟨0, false, false⟩)],
        [("a", wconf0)]⟩ : PoolState).states "a" = none →
      lookupT (⟨[("a", ⟨"a", "fn", false⟩)], [("a", ⟨0, false, false⟩)],
        [("a", wconf0)]⟩ : PoolState).stores "a" = none) ∧
    (lookupT (⟨[], [], []⟩ : PoolState).states "a" = none ∧
      lookupT (⟨[], [], []⟩ : PoolState).stores "a" = none ∧
      lookupT (⟨[], [], []⟩ : PoolState).webannoconfigs "a" = none) :=
  ⟨fun hx => by simp [lookupT] at hx,
    c7_unload_removes envDisk cfgRW
      ⟨[("a", ⟨"a", "fn", false⟩)], [("a", ⟨0, false, false⟩)], [("a", wconf0)]⟩
      "a" ⟨[], [], []⟩ []
      (fun hx => by simp [lookupT] at hx)
      (fun hx => by simp [lookupT] at hx) rfl⟩

/-! ### Flush lemmas and C6 -/

/-- The ids `flush` collects are exactly the tracked ids passing the
eviction condition. -/
theorem flushIds_mem (env : Env) (cfg : StorePool) (st : PoolState)
    (force : Bool) (id : String) :
    id ∈ flushIds env cfg st force ↔
      ∃ s, (id, s) ∈ st.states ∧ evictCond env cfg force s = true := by
  constructor
  · intro h
    obtain ⟨p, hp, he⟩ := List.mem_map.mp h
    obtain ⟨hmem, hcond⟩ := List.mem_filter.mp hp
    refine ⟨p.2, ?_, hcond⟩
    rw [← he]
    exact hmem
  · rintro ⟨s, hmem, hcond⟩
    exact List.mem_map.mpr ⟨(id, s), List.mem_filter.mpr ⟨hmem, hcond⟩, rfl⟩

/-- `(now - last).as_secs() >= unload_time` is `now - last >= unload_time`
in nanoseconds. -/
theorem evictCond_iff (env : Env) (cfg : StorePool) (force : Bool)
    (s : StoreState) :
    evictCond env cfg force s = true ↔
      (force = true ∨ cfg.unload_time * nanosPerSec ≤ env.now - s.last_access) := by
  unfold evictCond
  rw [Bool.or_eq_true, decide_eq_true_eq]
  exact or_congr Iff.rfl (Nat.le_div_iff_mul_le (by norm_num [nanosPerSec]))

/-- The unload loop of `flush`: on success every processed id is gone from
the State Table and every other id's entry is untouched. -/
theorem flushGo_ok_shape (env : Env) (cfg : StorePool) (ids : List String)
    (st : PoolState) (w0 : List String) (st1 : PoolState) (w1 : List String)
    (h : flushGo env cfg ids st w0 = .done (.ok (), st1, w1)) :
    (∀ id ∈ ids, lookupT st1.states id = none) ∧
    (∀ j, j ∉ ids → lookupT st1.states j = lookupT st.states j) := by
  induction ids generalizing st w0 with
  | nil =>
      simp [flushGo] at h
      obtain ⟨hst, -⟩ := h
      subst hst
      exact ⟨by simp, fun j _ => rfl⟩
  | cons id rest ih =>
      cases hu : unload env cfg st id with
      | blocked => simp [flushGo, hu] at h
      | done rr =>
          obtain ⟨res, st2, w2⟩ := rr
          cases res with
          | error e => simp [flushGo, hu] at h
          | ok u =>
              have h2 : flushGo env cfg rest st2 (w0 ++ w2) = .done (.ok (), st1, w1) := by
                simpa [flushGo, hu] using h
              obtain ⟨ha, hb⟩ := ih st2 (w0 ++ w2) h2
              constructor
              · intro k hk
                rcases List.mem_cons.mp hk with hk | hk
                · subst hk
                  by_cases hkr : k ∈ rest
                  · exact ha k hkr
                  · rw [hb k hkr]
                    exact unload_ok_states_removed env cfg st k st2 w2 hu
                · exact ha k hk
              · intro j hj
                have hj1 : j ≠ id := fun e => hj (by simp [e])
                have hj2 : j ∉ rest := fun e => hj (List.mem_cons_of_mem _ e)
                rw [hb j hj2]
                exact unload_states_ne env cfg st id (.ok u) st2 w2 hu j hj1

/-- C6: `flush force` returns as its evicted list exactly the tracked ids
with `now - last_access >= unload_time` (all tracked ids when `force`),
never an id any earlier; on success those ids are gone from the State
Table and every other id is untouched.  The clock hypothesis reflects that
Rust's `Duration` subtraction panics when `last_access` is in the future. -/
theorem c6_flush_spec (env : Env) (cfg : StorePool) (st : PoolState)
    (force : Bool) (l : List String) (st1 : PoolState) (w : List String)
    (hclock : ∀ p ∈ st.states, (p : String × StoreState).2.last_access ≤ env.now)
    (h : flush env cfg st force = .done (.ok l, st1, w)) :
    (∀ id, id ∈ l ↔ ∃ s, (id, s) ∈ st.states ∧
      (force = true ∨ cfg.unload_time * nanosPerSec ≤ env.now - s.last_access)) ∧
    (∀ id, id ∈ l → lookupT st1.states id = none) ∧
    (∀ j, j ∉ l → lookupT st1.states j = lookupT st.states j) := by
  have hl : l = flushIds env cfg st force ∧
      flushGo env cfg (flushIds env cfg st force) st [] = .done (.ok (), st1, w) := by
    cases hg : flushGo env cfg (flushIds env cfg st force) st [] with
    | blocked => simp [flush, hg] at h
    | done rr =>
        obtain ⟨res, st2, w2⟩ := rr
        cases res with
        | error e => simp [flush, hg] at h
        | ok u =>
            cases u
            have h2 : (Step.done (.ok (flushIds env cfg st force), st2, w2) :
                Step (Except ApiError (List String) × PoolState × List String)) =
                  .done (.ok l, st1, w) := by
              rw [← h]
              simp [flush, hg]
            injection h2 with h3
            rw [Prod.mk.injEq, Prod.mk.injEq] at h3
            obtain ⟨h4, h5, h6⟩ := h3
            injection h4 with h4
            refine ⟨h4.symm, ?_⟩
            rw [← h5, ← h6]
  obtain ⟨hll, hg⟩ := hl
  subst hll
  obtain ⟨ha, hb⟩ := flushGo_ok_shape env cfg _ st [] st1 w hg
  refine ⟨?_, ha, hb⟩
  intro id
  rw [flushIds_mem]
  constructor
  · rintro ⟨s, hmem, hcond⟩
    exact ⟨s, hmem, (evictCond_iff env cfg force s).mp hcond⟩
  · rintro ⟨s, hmem, hcond⟩
    exact ⟨s, hmem, (evictCond_iff env cfg force s).mpr hcond⟩

/-- An environment whose clock stands at 600 seconds. -/
def envFlush : Env := ⟨fun _ => false, fun _ => .error "io", fun _ => true, 600000000000, "/srv"⟩

/-- A pool tracking a stale store `old` (idle 600 s) and a fresh store
`new`. -/
def stFlush : PoolState :=
  ⟨[], [("old", ⟨0, false, false⟩), ("new", ⟨600000000000, false, false⟩)], []⟩

/-- Witness for C6: with `unload_time = 600`, flushing evicts exactly the
store idle for 600 seconds. -/
theorem c6_witness :
    (∀ p ∈ stFlush.states, (p : String × StoreState).2.last_access ≤ envFlush.now) ∧
    (∀ id, id ∈ ["old"] ↔ ∃ s, (id, s) ∈ stFlush.states ∧
      ((false : Bool) = true ∨
        cfgRW.unload_time * nanosPerSec ≤ envFlush.now - s.last_access)) :=
  ⟨by decide,
    (c6_flush_spec envFlush cfgRW stFlush false ["old"]
      ⟨[], [("new", ⟨600000000000, false, false⟩)], []⟩ [] (by decide) rfl).1⟩

/-! ### C9: a second save is a no-op -/

/-- Shape of a successful `save`: the pool was writable, the id was tracked
and idle, the State Table only has the saving flag toggled off, and any
store left under the id is clean. -/
theorem save_ok_shape (env : Env) (cfg : StorePool) (st : PoolState)
    (id : String) (st1 : PoolState) (w : List String)
    (h : save env cfg st id = .done (.ok (), st1, w)) :
    cfg.readonly = false ∧
    (∃ s, lookupT st.states id = some s ∧ s.loading = false ∧ s.saving = false) ∧
    st1.states = updateT st.states id (fun t => { t with saving := false }) ∧
    (∀ a, lookupT st1.stores id = some a → a.changed = false) := by
  cases hs : lookupT st.states id with
  | none => simp [save, wait_until_ready, hs] at h
  | some s =>
      by_cases hb : (s.loading || s.saving) = true
      · simp [save, wait_until_ready, hs, hb] at h
      · have hl : s.loading = false := by
          cases hx : s.loading
          · rfl
          · exact absurd (by rw [Bool.or_eq_true]; exact Or.inl hx) hb
        have hsv : s.saving = false := by
          cases hx : s.saving
          · rfl
          · exact absurd (by rw [Bool.or_eq_true]; exact Or.inr hx) hb
        by_cases hro : cfg.readonly = true
        · simp [save, wait_until_ready, hs, hb, hro] at h
        · refine ⟨Bool.not_eq_true _ |>.mp hro, ⟨s, rfl, hl, hsv⟩, ?_⟩
          cases hst : lookupT st.stores id with
          | none =>
              simp [save, wait_until_ready, hs, hb, hro, hst] at h
              obtain ⟨hst1, -⟩ := h
              constructor
              · rw [← hst1]
                rw [updateT_updateT]
              · intro a ha
                rw [← hst1] at ha
                rw [hst] at ha
                exact absurd ha (by simp)
          | some a =>
              by_cases hch : a.changed = true
              · by_cases hdk : env.diskOk a.filename = true
                · simp [save, wait_until_ready, hs, hb, hro, hst, hch, hdk] at h
                  obtain ⟨hst1, -⟩ := h
                  constructor
                  · rw [← hst1]
                    rw [updateT_updateT]
                  · intro a2 ha2
                    rw [← hst1, lookupT_updateT_self, hst] at ha2
                    cases ha2
                    rfl
                · simp [save, wait_until_ready, hs, hb, hro, hst, hch, hdk] at h
              · simp [save, wait_until_ready, hs, hb, hro, hst, hch] at h
                obtain ⟨hst1, -⟩ := h
                constructor
                · rw [← hst1]
                  rw [updateT_updateT]
                · intro a2 ha2
                  rw [← hst1, hst] at ha2
                  cases ha2
                  exact Bool.not_eq_true _ |>.mp hch

/-- C9: after a successful `save id`, a second `save id` with no
intervening mutation succeeds, writes nothing to disk (the store's
`changed()` is false, so `store.save()` is not invoked), and leaves the
pool state exactly as it was. -/
theorem c9_save_idempotent (env env2 : Env) (cfg : StorePool)
    (st st1 : PoolState) (id : String) (w1 : List String)
    (h : save env cfg st id = .done (.ok (), st1, w1)) :
    save env2 cfg st1 id = .done (.ok (), st1, []) ∧
    (∀ a, lookupT st1.stores id = some a → a.changed = false) := by
  obtain ⟨hro, ⟨s, hs, hl, hsv⟩, hstates, hchanged⟩ :=
    save_ok_shape env cfg st id st1 w1 h
  refine ⟨?_, hchanged⟩
  have hro2 : cfg.readonly ≠ true := by simp [hro]
  have hlook1 : lookupT st1.states id = some { s with saving := false } := by
    rw [hstates, lookupT_updateT_self, hs]
    rfl
  have hfix : updateT (updateT st1.states id (fun t => { t with saving := true })) id
      (fun t => { t with saving := false }) = st1.states := by
    rw [updateT_updateT, hstates, updateT_updateT]
  cases hst : lookupT st1.stores id with
  | none =>
      have hev : save env2 cfg st1 id =
          .done (.ok (), { st1 with states := updateT (updateT st1.states id (fun t => { t with saving := true })) id (fun t => { t with saving := false }) }, []) := by
        simp [save, wait_until_ready, hlook1, hl, hro2, hst]
      rw [hev, hfix]
  | some a =>
      have ha : a.changed = false := hchanged a hst
      have hev : save env2 cfg st1 id =
          .done (.ok (), { st1 with states := updateT (updateT st1.states id (fun t => { t with saving := true })) id (fun t => { t with saving := false }) }, []) := by
        simp [save, wait_until_ready, hlook1, hl, hro2, hst, ha]
      rw [hev, hfix]

/-- Witness for C9: saving a dirty store writes once, and a second save
writes nothing and changes nothing. -/
theorem c9_witness :
    save envDisk cfgRW stDirty "a" =
      .done (.ok (), ⟨[("a", ⟨"a", "a.store.stam.json", false⟩)],
        [("a", ⟨0, false, false⟩)], []⟩, ["a.store.stam.json"]) ∧
    save envDisk cfgRW ⟨[("a", ⟨"a", "a.store.stam.json", false⟩)],
        [("a", ⟨0, false, false⟩)], []⟩ "a" =
      .done (.ok (), ⟨[("a", ⟨"a", "a.store.stam.json", false⟩)],
        [("a", ⟨0, false, false⟩)], []⟩, []) :=
  ⟨rfl,
    (c9_save_idempotent envDisk envDisk cfgRW stDirty
      ⟨[("a", ⟨"a", "a.store.stam.json", false⟩)], [("a", ⟨0, false, false⟩)], []⟩
      "a" ["a.store.stam.json"] rfl).1⟩

end Stamd
